import Mathlib

/-!
Shallow embedding of the Intcode virtual machine from
`src/day21-1/src/main.rs`, together with theorems settling the frozen
claims about its specification.

Conventions of the embedding:
* Rust `i128` values become `Int`; `usize` casts (`as usize`) are modelled
  by reduction modulo 2^64 into `Nat` (`usizeOfInt`), exactly the
  truncating semantics of the cast.
* `Vec<i128>` memory of fixed capacity becomes a `Mem` structure: a size
  together with a contents function; out-of-bounds indexing, which panics
  in Rust, is modelled by `Option` (`none` = the session aborts).
* Rust `/` and `%` on `i128` truncate toward zero, so the embedding uses
  `Int.tdiv` and `Int.tmod`.
* every `panic!` / failed `assert!` / out-of-range index becomes `none`.
* the unbounded run loops are given explicit fuel; fuel exhaustion is kept
  distinguishable from a fatal error where a theorem needs it.
-/

namespace Day21

/-- Truncating cast from a signed wide value to a 64-bit machine index, as
performed by the Rust cast `as usize`: the value is reduced modulo
2^64 = 18446744073709551616 into the unsigned 64-bit range. -/
def usizeOfInt (i : Int) : Nat := (Int.emod i 18446744073709551616).toNat

/-- Fixed-capacity machine memory: `size` cells indexed from `0`, each
holding a signed wide integer (the source's `Vec<i128>`, represented by its
length together with its contents function). -/
structure Mem where
  size : Nat
  get : Nat → Int

/-- Reading cell `i`; `none` models the out-of-bounds indexing panic. -/
def Mem.read? (m : Mem) (i : Nat) : Option Int :=
  if i < m.size then some (m.get i) else none

/-- Writing value `v` to cell `i`; `none` models the out-of-bounds
indexing panic. -/
def Mem.write? (m : Mem) (i : Nat) (v : Int) : Option Mem :=
  if i < m.size then some ⟨m.size, fun j => if j = i then v else m.get j⟩
  else none

/-- Parameter addressing mode (source enum `ParamMode`). -/
inductive ParamMode where
  | positional
  | immediate
  | relative
deriving DecidableEq, Repr

/-- Arguments to a mode resolution (source struct `ParamArgs`). -/
structure ParamArgs where
  param : Int
  relative_base : Int

/-- Decoding of one mode digit (source `ParamMode::from_i128`); the
source panics on any digit other than 0, 1, 2. -/
def ParamMode.from_i128 : Int → Option ParamMode
  | 0 => some .positional
  | 1 => some .immediate
  | 2 => some .relative
  | _ => none

/-- Resolving a parameter for reading (source `ParamMode::read`): the
source asserts the resolved address is non-negative and then indexes
memory with it cast to `usize`. -/
def ParamMode.read (mode : ParamMode) (a : ParamArgs) (memory : Mem) :
    Option Int :=
  match mode with
  | .positional =>
      if 0 ≤ a.param then memory.read? (usizeOfInt a.param) else none
  | .immediate => some a.param
  | .relative =>
      let address := a.param + a.relative_base
      if 0 ≤ address then memory.read? (usizeOfInt address) else none

/-- Resolving a parameter for writing (source `ParamMode::write`): same
address computation as `read`; writing in immediate mode panics. -/
def ParamMode.write (mode : ParamMode) (a : ParamArgs) (value : Int)
    (memory : Mem) : Option Mem :=
  match mode with
  | .positional =>
      if 0 ≤ a.param then memory.write? (usizeOfInt a.param) value else none
  | .immediate => none
  | .relative =>
      let address := a.param + a.relative_base
      if 0 ≤ address then memory.write? (usizeOfInt address) value else none

/-- Remaining mode digits of an instruction word (source struct
`ParamModes`): only the encoded integer is stored, and individual modes
are computed per queried index. -/
structure ParamModes where
  encoded : Int

/-- Mode digit for 0-based parameter index `n` (source
`ParamModes::nth`): `(encoded / 10^n) % 10`, with truncating division as
in Rust. -/
def ParamModes.nth (pm : ParamModes) (n : Nat) : Option ParamMode :=
  ParamMode.from_i128 (Int.tmod (Int.tdiv pm.encoded ((10 : Int) ^ n)) 10)

/-- Operation selector (source enum `Opcode`). -/
inductive Opcode where
  | add
  | multiply
  | input
  | output
  | jumpIfTrue
  | jumpIfFalse
  | lessThan
  | equals
  | adjustRelativeBase
  | halt
deriving DecidableEq, Repr

/-- Decoding of an opcode number (source `Opcode::from_i128`); the source
panics on any number other than 1-9 and 99. -/
def Opcode.from_i128 : Int → Option Opcode
  | 1 => some .add
  | 2 => some .multiply
  | 3 => some .input
  | 4 => some .output
  | 5 => some .jumpIfTrue
  | 6 => some .jumpIfFalse
  | 7 => some .lessThan
  | 8 => some .equals
  | 9 => some .adjustRelativeBase
  | 99 => some .halt
  | _ => none

/-- Numeric code of each opcode, the inverse table of `Opcode.from_i128`;
used to state decoding claims. -/
def Opcode.code : Opcode → Int
  | .add => 1
  | .multiply => 2
  | .input => 3
  | .output => 4
  | .jumpIfTrue => 5
  | .jumpIfFalse => 6
  | .lessThan => 7
  | .equals => 8
  | .adjustRelativeBase => 9
  | .halt => 99

/-- Result of one engine step (source enum `Status`). -/
inductive Status where
  | running
  | waitForInput
  | wroteOutput
  | halt
deriving DecidableEq, Repr

/-- Execution state (source struct `State`): instruction pointer and
relative base. -/
structure State where
  ip : Nat
  relative_base : Int

/-- Decoded view of one instruction word (source struct `Instruction`). -/
structure Instruction where
  opcode : Opcode
  param_modes : ParamModes

/-- Instruction decoding (source `Instruction::decode`): opcode from
`encoded % 100`, remaining mode digits from `encoded / 100`, with the
truncating division and remainder of Rust. -/
def Instruction.decode (encoded : Int) : Option Instruction :=
  match Opcode.from_i128 (Int.tmod encoded 100) with
  | none => none
  | some opcode => some ⟨opcode, ⟨Int.tdiv encoded 100⟩⟩

/-- Outcome of executing one instruction: the updated memory, execution
state, both I/O channels, and the reported status. The source mutates
these in place; the embedding returns them. -/
structure RunResult where
  memory : Mem
  state : State
  input_buffer : List Int
  output_buffer : List Int
  status : Status

/-- Execution of one decoded instruction (source `Instruction::run`).
I/O channels are FIFO lists with the front at the head. Any panicking
path of the source (out-of-range index, bad mode digit, immediate-mode
write, negative resolved address) yields `none`. -/
def Instruction.run (self : Instruction) (memory : Mem) (state : State)
    (input_buffer : List Int) (output_buffer : List Int) :
    Option RunResult :=
  let relative_base := state.relative_base
  match self.opcode with
  | .add =>
      (memory.read? (state.ip + 1)).bind fun lhs_param =>
      (memory.read? (state.ip + 2)).bind fun rhs_param =>
      (memory.read? (state.ip + 3)).bind fun dst_param =>
      (self.param_modes.nth 0).bind fun mode0 =>
      (mode0.read ⟨lhs_param, relative_base⟩ memory).bind fun lhs =>
      (self.param_modes.nth 1).bind fun mode1 =>
      (mode1.read ⟨rhs_param, relative_base⟩ memory).bind fun rhs =>
      let value := lhs + rhs
      (self.param_modes.nth 2).bind fun mode2 =>
      (mode2.write ⟨dst_param, relative_base⟩ value memory).bind fun memory' =>
      some ⟨memory', { state with ip := state.ip + 4 }, input_buffer,
        output_buffer, .running⟩
  | .multiply =>
      (memory.read? (state.ip + 1)).bind fun lhs_param =>
      (memory.read? (state.ip + 2)).bind fun rhs_param =>
      (memory.read? (state.ip + 3)).bind fun dst_param =>
      (self.param_modes.nth 0).bind fun mode0 =>
      (mode0.read ⟨lhs_param, relative_base⟩ memory).bind fun lhs =>
      (self.param_modes.nth 1).bind fun mode1 =>
      (mode1.read ⟨rhs_param, relative_base⟩ memory).bind fun rhs =>
      let value := lhs * rhs
      (self.param_modes.nth 2).bind fun mode2 =>
      (mode2.write ⟨dst_param, relative_base⟩ value memory).bind fun memory' =>
      some ⟨memory', { state with ip := state.ip + 4 }, input_buffer,
        output_buffer, .running⟩
  | .input =>
      match input_buffer with
      | value :: rest =>
          (memory.read? (state.ip + 1)).bind fun param =>
          (self.param_modes.nth 0).bind fun mode0 =>
          (mode0.write ⟨param, relative_base⟩ value memory).bind fun memory' =>
          some ⟨memory', { state with ip := state.ip + 2 }, rest,
            output_buffer, .running⟩
      | [] =>
          some ⟨memory, state, input_buffer, output_buffer, .waitForInput⟩
  | .output =>
      (memory.read? (state.ip + 1)).bind fun param =>
      (self.param_modes.nth 0).bind fun mode0 =>
      (mode0.read ⟨param, relative_base⟩ memory).bind fun output =>
      some ⟨memory, { state with ip := state.ip + 2 }, input_buffer,
        output_buffer ++ [output], .wroteOutput⟩
  | .jumpIfTrue =>
      (memory.read? (state.ip + 1)).bind fun cond_param =>
      (memory.read? (state.ip + 2)).bind fun target_param =>
      (self.param_modes.nth 0).bind fun mode0 =>
      (mode0.read ⟨cond_param, relative_base⟩ memory).bind fun cond =>
      if cond ≠ 0 then
        (self.param_modes.nth 1).bind fun mode1 =>
        (mode1.read ⟨target_param, relative_base⟩ memory).bind fun target =>
        some ⟨memory, { state with ip := usizeOfInt target }, input_buffer,
          output_buffer, .running⟩
      else
        some ⟨memory, { state with ip := state.ip + 3 }, input_buffer,
          output_buffer, .running⟩
  | .jumpIfFalse =>
      (memory.read? (state.ip + 1)).bind fun cond_param =>
      (memory.read? (state.ip + 2)).bind fun target_param =>
      (self.param_modes.nth 0).bind fun mode0 =>
      (mode0.read ⟨cond_param, relative_base⟩ memory).bind fun cond =>
      if cond = 0 then
        (self.param_modes.nth 1).bind fun mode1 =>
        (mode1.read ⟨target_param, relative_base⟩ memory).bind fun target =>
        some ⟨memory, { state with ip := usizeOfInt target }, input_buffer,
          output_buffer, .running⟩
      else
        some ⟨memory, { state with ip := state.ip + 3 }, input_buffer,
          output_buffer, .running⟩
  | .lessThan =>
      (memory.read? (state.ip + 1)).bind fun lhs_param =>
      (memory.read? (state.ip + 2)).bind fun rhs_param =>
      (memory.read? (state.ip + 3)).bind fun dst_param =>
      (self.param_modes.nth 0).bind fun mode0 =>
      (mode0.read ⟨lhs_param, relative_base⟩ memory).bind fun lhs =>
      (self.param_modes.nth 1).bind fun mode1 =>
      (mode1.read ⟨rhs_param, relative_base⟩ memory).bind fun rhs =>
      let value : Int := if lhs < rhs then 1 else 0
      (self.param_modes.nth 2).bind fun mode2 =>
      (mode2.write ⟨dst_param, relative_base⟩ value memory).bind fun memory' =>
      some ⟨memory', { state with ip := state.ip + 4 }, input_buffer,
        output_buffer, .running⟩
  | .equals =>
      (memory.read? (state.ip + 1)).bind fun lhs_param =>
      (memory.read? (state.ip + 2)).bind fun rhs_param =>
      (memory.read? (state.ip + 3)).bind fun dst_param =>
      (self.param_modes.nth 0).bind fun mode0 =>
      (mode0.read ⟨lhs_param, relative_base⟩ memory).bind fun lhs =>
      (self.param_modes.nth 1).bind fun mode1 =>
      (mode1.read ⟨rhs_param, relative_base⟩ memory).bind fun rhs =>
      let value : Int := if lhs = rhs then 1 else 0
      (self.param_modes.nth 2).bind fun mode2 =>
      (mode2.write ⟨dst_param, relative_base⟩ value memory).bind fun memory' =>
      some ⟨memory', { state with ip := state.ip + 4 }, input_buffer,
        output_buffer, .running⟩
  | .adjustRelativeBase =>
      (memory.read? (state.ip + 1)).bind fun param =>
      (self.param_modes.nth 0).bind fun mode0 =>
      (mode0.read ⟨param, relative_base⟩ memory).bind fun adjust_by =>
      some ⟨memory, ⟨state.ip + 2, state.relative_base + adjust_by⟩,
        input_buffer, output_buffer, .running⟩
  | .halt =>
      some ⟨memory, state, input_buffer, output_buffer, .halt⟩

/-- Machine session (source struct `IntcodeComputer`): fixed memory plus
execution state. -/
structure IntcodeComputer where
  memory : Mem
  state : State

/-- Session creation (source `IntcodeComputer::new`): allocate `2^16`
zeroed cells and copy the program into the prefix; a program longer than
the capacity makes the slice indexing panic before any instruction runs
(`none`). -/
def IntcodeComputer.new (program : List Int) : Option IntcodeComputer :=
  if program.length ≤ 65536 then
    some ⟨⟨65536, fun i => program.getD i 0⟩, ⟨0, 0⟩⟩
  else none

/-- One iteration of the source `IntcodeComputer::run` loop body: fetch
the word at the instruction pointer, decode it, execute it. -/
def IntcodeComputer.step (c : IntcodeComputer)
    (input_buffer : List Int) (output_buffer : List Int) :
    Option (IntcodeComputer × List Int × List Int × Status) :=
  (c.memory.read? c.state.ip).bind fun word =>
  (Instruction.decode word).bind fun instruction =>
  (instruction.run c.memory c.state input_buffer output_buffer).bind fun r =>
  some (⟨r.memory, r.state⟩, r.input_buffer, r.output_buffer, r.status)

/-- Stop reason of a run burst (source enum `StopStatus`). -/
inductive StopStatus where
  | waitForInput
  | wroteOutput
  | halt
deriving DecidableEq, Repr

/-- The source `IntcodeComputer::run` loop, with explicit fuel: step while
the status is `running`, return at the first `waitForInput`,
`wroteOutput` or `halt`. `none` means a fatal error or fuel exhaustion. -/
def IntcodeComputer.run :
    Nat → IntcodeComputer → List Int → List Int →
    Option (IntcodeComputer × List Int × List Int × StopStatus)
  | 0, _, _, _ => none
  | fuel + 1, c, input_buffer, output_buffer =>
      match c.step input_buffer output_buffer with
      | none => none
      | some (c', inb', outb', .running) => IntcodeComputer.run fuel c' inb' outb'
      | some (c', inb', outb', .waitForInput) => some (c', inb', outb', .waitForInput)
      | some (c', inb', outb', .wroteOutput) => some (c', inb', outb', .wroteOutput)
      | some (c', inb', outb', .halt) => some (c', inb', outb', .halt)

/-- Bounded run-to-halt driver loop (the source `Solution::run_until_halt`
composed with `IntcodeComputer::run`): keep stepping through `running`
and `wroteOutput` until `halt` or `waitForInput`. Fuel exhaustion
returns the current state with status `running`, so `none` is reachable
only through a fatal error of the machine itself. -/
def runBounded :
    Nat → IntcodeComputer → List Int → List Int →
    Option (IntcodeComputer × List Int × List Int × Status)
  | 0, c, input_buffer, output_buffer =>
      some (c, input_buffer, output_buffer, .running)
  | fuel + 1, c, input_buffer, output_buffer =>
      match c.step input_buffer output_buffer with
      | none => none
      | some (c', inb', outb', .running) => runBounded fuel c' inb' outb'
      | some (c', inb', outb', .wroteOutput) => runBounded fuel c' inb' outb'
      | some (c', inb', outb', st) => some (c', inb', outb', st)

/-- Drain loop of the source `IoBuffer::drain_ascii_string`: pop queued
values from the front while they are at most 127, returning the removed
run together with the remaining queue. The source finally converts the
removed values, cast to bytes, into a `String` via `String::from_utf8`
(a panic when the bytes are not valid UTF-8, which is reachable only
when negative values were removed); the claims concern which values are
removed and which remain, so that final conversion is left out of the
embedding. -/
def IoBuffer.drain_ascii_string : List Int → List Int × List Int
  | [] => ([], [])
  | next :: rest =>
      if next ≤ 127 then
        (next :: (IoBuffer.drain_ascii_string rest).1,
          (IoBuffer.drain_ascii_string rest).2)
      else ([], next :: rest)

/-- Printable-ASCII-range predicate, taken from the specification's words
(printable ASCII covers codes 32 through 126). -/
def printableAscii (v : Int) : Bool := 32 ≤ v && v ≤ 126

/-- Text-drain operation as the specification's sentence describes it
(for comparison with the source's `IoBuffer.drain_ascii_string`): remove
exactly the longest leading run of printable-ASCII values, leaving the
rest queued. -/
def drain_text_spec (q : List Int) : List Int × List Int :=
  (q.takeWhile printableAscii, q.dropWhile printableAscii)

/-- ASCII codes of a string, as pushed by the source
`IoBuffer::write_ascii_string` via `s.bytes()`; for the ASCII-only
command strings in this program the UTF-8 bytes coincide with the
character code points. -/
def asciiOfString (s : String) : List Int :=
  s.toList.map fun c => (c.toNat : Int)

/-- Source `IoBuffer::write_ascii_string` (terminal echo ignored): push
the byte codes of `s` onto the back of the queue. -/
def IoBuffer.write_ascii_string (buffer : List Int) (s : String) : List Int :=
  buffer ++ asciiOfString s

/-- Source constant `SPRING_SCRIPT`. -/
def SPRING_SCRIPT : List String := [ "NOT C T", "AND D T", "NOT A J", "OR T J"]

/-- Feeding phase of the source `Solution::run`: between the
await-input burst and the run-to-completion burst, every script line
followed by a newline is written into the input channel, then the fixed
run-mode command line `WALK` with its newline. -/
def Solution.feedPhase (script : List String) (input_buffer : List Int) :
    List Int :=
  IoBuffer.write_ascii_string
    (script.foldl
      (fun buffer s => IoBuffer.write_ascii_string buffer (s ++ "\n"))
      input_buffer)
    "WALK\n"

/-- Byte codes written during the feeding phase configured with
`SPRING_SCRIPT`: the four command lines and the run-mode command, each
newline-terminated, in order. -/
def feedBytes : List Int :=
  ((SPRING_SCRIPT.map fun s => s ++ "\n") ++ [ "WALK\n"]).map asciiOfString
    |>.flatten

/-- Test program of the self-add scenario. -/
def prog1 : List Int := [1, 0, 0, 0, 99]

/-- Test program of the immediate-mode multiply scenario. -/
def prog2 : List Int := [1002, 4, 3, 4, 33]

/-- Test program of the input-echo scenario. -/
def prog3 : List Int := [3, 0, 4, 0, 99]

/-- Program the specification presents as a relative-mode quine. -/
def progQuine : List Int :=
  [109, 1, 204, -1, 1101, 100, -1, 204, 9, 1101, 100, 1, 204, 9, 99]

/-- Program whose first instruction jumps (both modes immediate, true
condition) to the negative target 5 - 2^64; the truncating pointer cast
wraps it to the in-range index 5, where a Halt instruction sits. -/
def c2prog : List Int := [1105, 1, 5 - 18446744073709551616, 0, 0, 99]

/-- Address a write in the given mode resolves to (the address
computation shared by the arms of `ParamMode::write`): `none` for an
immediate-mode write, a negative address, or an out-of-range cell. -/
def ParamMode.addr? (mode : ParamMode) (a : ParamArgs) (m : Mem) :
    Option Nat :=
  match mode with
  | .positional =>
      if 0 ≤ a.param then
        if usizeOfInt a.param < m.size then some (usizeOfInt a.param)
        else none
      else none
  | .immediate => none
  | .relative =>
      let address := a.param + a.relative_base
      if 0 ≤ address then
        if usizeOfInt address < m.size then some (usizeOfInt address)
        else none
      else none

theorem Mem.write?_eq_some {m : Mem} {i : Nat} {v : Int} {m' : Mem}
    (h : m.write? i v = some m') :
    i < m.size ∧ m' = ⟨m.size, fun j => if j = i then v else m.get j⟩ := by
  by_cases h1 : i < m.size
  · refine ⟨h1, ?_⟩
    simp only [Mem.write?, if_pos h1, Option.some.injEq] at h
    exact h.symm
  · simp [Mem.write?, h1] at h

theorem ParamMode.addr?_of_write {md : ParamMode} {a : ParamArgs} {v : Int}
    {m m' : Mem} (h : md.write a v m = some m') :
    ∃ addr, md.addr? a m = some addr ∧
      m' = ⟨m.size, fun j => if j = addr then v else m.get j⟩ := by
  cases md with
  | positional =>
      by_cases h0 : 0 ≤ a.param
      · simp only [ParamMode.write, if_pos h0] at h
        obtain ⟨h1, rfl⟩ := Mem.write?_eq_some h
        exact ⟨usizeOfInt a.param, by simp [ParamMode.addr?, h0, h1], rfl⟩
      · simp [ParamMode.write, h0] at h
  | immediate => simp [ParamMode.write] at h
  | relative =>
      by_cases h0 : 0 ≤ a.param + a.relative_base
      · simp only [ParamMode.write, if_pos h0] at h
        obtain ⟨h1, rfl⟩ := Mem.write?_eq_some h
        exact ⟨usizeOfInt (a.param + a.relative_base),
          by simp [ParamMode.addr?, h0, h1], rfl⟩
      · simp [ParamMode.write, h0] at h

theorem ParamMode.write_of_addr? {md : ParamMode} {a : ParamArgs} {m : Mem}
    {addr : Nat} (h : md.addr? a m = some addr) (v : Int) :
    md.write a v m = some ⟨m.size, fun j => if j = addr then v else m.get j⟩ := by
  cases md with
  | positional =>
      by_cases h0 : 0 ≤ a.param
      · by_cases h1 : usizeOfInt a.param < m.size
        · simp only [ParamMode.addr?, if_pos h0, if_pos h1,
            Option.some.injEq] at h
          subst h
          simp [ParamMode.write, Mem.write?, h0, h1]
        · simp [ParamMode.addr?, h0, h1] at h
      · simp [ParamMode.addr?, h0] at h
  | immediate => simp [ParamMode.addr?] at h
  | relative =>
      by_cases h0 : 0 ≤ a.param + a.relative_base
      · by_cases h1 : usizeOfInt (a.param + a.relative_base) < m.size
        · simp only [ParamMode.addr?, if_pos h0, if_pos h1,
            Option.some.injEq] at h
          subst h
          simp [ParamMode.write, Mem.write?, h0, h1]
        · simp [ParamMode.addr?, h0, h1] at h
      · simp [ParamMode.addr?, h0] at h

theorem ParamMode.read_addr (m2 : Mem) {md : ParamMode} {a : ParamArgs}
    {m : Mem} {addr : Nat} (h : md.addr? a m = some addr)
    (hs : m2.size = m.size) :
    md.read a m2 = some (m2.get addr) := by
  cases md with
  | positional =>
      by_cases h0 : 0 ≤ a.param
      · by_cases h1 : usizeOfInt a.param < m.size
        · simp only [ParamMode.addr?, if_pos h0, if_pos h1,
            Option.some.injEq] at h
          subst h
          simp [ParamMode.read, Mem.read?, h0, hs, h1]
        · simp [ParamMode.addr?, h0, h1] at h
      · simp [ParamMode.addr?, h0] at h
  | immediate => simp [ParamMode.addr?] at h
  | relative =>
      by_cases h0 : 0 ≤ a.param + a.relative_base
      · by_cases h1 : usizeOfInt (a.param + a.relative_base) < m.size
        · simp only [ParamMode.addr?, if_pos h0, if_pos h1,
            Option.some.injEq] at h
          subst h
          simp [ParamMode.read, Mem.read?, h0, hs, h1]
        · simp [ParamMode.addr?, h0, h1] at h
      · simp [ParamMode.addr?, h0] at h

theorem Opcode.from_i128_eq_some {k : Int} {op : Opcode} :
    Opcode.from_i128 k = some op ↔ Opcode.code op = k := by
  constructor
  · intro h
    unfold Opcode.from_i128 at h
    split at h <;> cases h <;> rfl
  · intro h
    subst h
    cases op <;> rfl

theorem Opcode.from_i128_eq_none {k : Int} :
    Opcode.from_i128 k = none ↔ ∀ op : Opcode, Opcode.code op ≠ k := by
  constructor
  · intro h op hk
    have hsome := Opcode.from_i128_eq_some.mpr hk
    rw [h] at hsome
    exact Option.noConfusion hsome
  · intro h
    cases hk : Opcode.from_i128 k with
    | none => rfl
    | some op => exact absurd (Opcode.from_i128_eq_some.mp hk) fun hc => h op hc

/-- C5: for every parameter mode, raw parameter, and relative base under
which a write resolves without a fatal error, writing `v` and then
reading back with the same mode, parameter, and relative base returns
exactly `v`. -/
theorem c5_write_read_roundtrip (mode : ParamMode) (a : ParamArgs)
    (v : Int) (m m' : Mem) (h : mode.write a v m = some m') :
    mode.read a m' = some v := by
  obtain ⟨addr, haddr, rfl⟩ := ParamMode.addr?_of_write h
  rw [ParamMode.read_addr ⟨m.size, fun j => if j = addr then v else m.get j⟩
    haddr rfl]
  simp

/-- C5 witness: a concrete positional-mode round trip through cell 0. -/
theorem c5_witness :
    ParamMode.read .positional ⟨0, 0⟩ ⟨1, fun j => if j = 0 then 42 else 0⟩ =
      some 42 :=
  c5_write_read_roundtrip .positional ⟨0, 0⟩ 42 ⟨1, fun _ => 0⟩
    ⟨1, fun j => if j = 0 then 42 else 0⟩ rfl

/-- C7 (amended): the text-drain loop removes and returns, in FIFO order,
exactly the longest leading run of queued values that are at most 127
(rather than: in the printable ASCII range), stopping at the first value
above 127 or when the queue is exhausted, and leaves every remaining
value queued in order. -/
theorem c7_drain_takeWhile (q : List Int) :
    IoBuffer.drain_ascii_string q =
      (q.takeWhile fun v => decide (v ≤ 127),
        q.dropWhile fun v => decide (v ≤ 127)) ∧
    (IoBuffer.drain_ascii_string q).1 ++ (IoBuffer.drain_ascii_string q).2 = q := by
  have key : ∀ q : List Int, IoBuffer.drain_ascii_string q =
      (q.takeWhile fun v => decide (v ≤ 127),
        q.dropWhile fun v => decide (v ≤ 127)) := by
    intro q
    induction q with
    | nil => rfl
    | cons x xs ih =>
        by_cases h : x ≤ 127
        · simp [IoBuffer.drain_ascii_string, h, List.takeWhile_cons,
            List.dropWhile_cons, ih]
        · simp [IoBuffer.drain_ascii_string, h, List.takeWhile_cons,
            List.dropWhile_cons]
  refine ⟨key q, ?_⟩
  rw [key q]
  simp [List.takeWhile_append_dropWhile]

/-- C7 counterexample: the value 7 is not in the printable ASCII range,
yet the drain removes it instead of stopping in front of it, so at the
queue `[7, 200]` the source drain disagrees with the printable-ASCII
drain described by the claim (which would leave `[7, 200]` queued). -/
theorem c7_counterexample :
    IoBuffer.drain_ascii_string [7, 200] = ([7], [200]) ∧
    drain_text_spec [7, 200] = ([], [7, 200]) ∧
    IoBuffer.drain_ascii_string [7, 200] ≠ drain_text_spec [7, 200] ∧
    printableAscii 7 = false := by
  exact ⟨by decide, by decide, by decide, by decide⟩

/-- C10: session creation succeeds exactly for programs of at most 65536
values; it allocates exactly 65536 cells, copies the program into the
prefix, zero-fills every cell past the program length, and starts with
pointer 0 and relative base 0; a longer program is a fatal error before
any instruction executes. -/
theorem c10_new_session (program : List Int) :
    (program.length ≤ 65536 →
      (IntcodeComputer.new program).map (fun c => c.memory.size) =
        some 65536 ∧
      (∀ i, i < program.length →
        (IntcodeComputer.new program).map (fun c => c.memory.get i) =
          some (program.getD i 0)) ∧
      (∀ i, program.length ≤ i →
        (IntcodeComputer.new program).map (fun c => c.memory.get i) =
          some 0) ∧
      (IntcodeComputer.new program).map
          (fun c => (c.state.ip, c.state.relative_base)) = some (0, 0)) ∧
    (65536 < program.length → IntcodeComputer.new program = none) := by
  constructor
  · intro h
    have hnew : IntcodeComputer.new program =
        some ⟨⟨65536, fun i => program.getD i 0⟩, ⟨0, 0⟩⟩ := by
      simp [IntcodeComputer.new, h]
    refine ⟨by simp [hnew], fun i hi => by simp [hnew], fun i hi => ?_,
      by simp [hnew]⟩
    have hd : program.getD i 0 = 0 := List.getD_eq_default _ _ hi
    rw [hnew]
    simp only [Option.map_some', Option.some.injEq]
    exact hd
  · intro h
    simp [IntcodeComputer.new, Nat.not_le.mpr h]

/-- C10 witness: creation on a 3-value program fills the prefix and
zeroes the rest, and creation on a 65537-value program is fatal. -/
theorem c10_witness :
    (IntcodeComputer.new [1, 2, 3]).map (fun c => c.memory.size) =
      some 65536 ∧
    (IntcodeComputer.new [1, 2, 3]).map (fun c => c.memory.get 1) = some 2 ∧
    (IntcodeComputer.new [1, 2, 3]).map (fun c => c.memory.get 7) = some 0 ∧
    IntcodeComputer.new (List.replicate 65537 0) = none := by
  have h1 := (c10_new_session [1, 2, 3]).1 (by decide)
  have h2 := (c10_new_session (List.replicate 65537 0)).2
    (by rw [List.length_replicate]; omega)
  exact ⟨h1.1, h1.2.1 1 (by decide), h1.2.2.1 7 (by decide), h2⟩

/-- C8: the feeding phase configured with the four SPRING_SCRIPT command
lines plus the fixed run-mode command writes exactly five
newline-terminated entries into the input channel, in command order,
each entry encoded byte-by-byte with a trailing newline code. -/
theorem c8_feed_phase (input_buffer : List Int) :
    Solution.feedPhase SPRING_SCRIPT input_buffer =
      input_buffer ++ feedBytes ∧
    feedBytes =
      [78, 79, 84, 32, 67, 32, 84, 10,
       65, 78, 68, 32, 68, 32, 84, 10,
       78, 79, 84, 32, 65, 32, 74, 10,
       79, 82, 32, 84, 32, 74, 10,
       87, 65, 76, 75, 10] ∧
    feedBytes.count 10 = 5 ∧
    SPRING_SCRIPT.length + 1 = 5 := by
  refine ⟨?_, by decide, by decide, by decide⟩
  simp [Solution.feedPhase, SPRING_SCRIPT, feedBytes,
    IoBuffer.write_ascii_string, List.foldl_cons, List.foldl_nil,
    List.map_cons, List.map_nil, List.append_assoc]

/-- C6: decoding extracts the opcode as the word tmod 100, fatally
failing exactly when no opcode carries that code, and the mode for
0-based parameter index n as the digit (word tdiv 100) tdiv 10^n tmod 10,
computed per queried index from the stored encoded integer, with digits
0, 1, 2 mapping to Positional, Immediate, Relative and every other digit
fatal. -/
theorem c6_decode_contract (w : Int) (n : Nat) :
    (Instruction.decode w = none ↔
      ∀ op : Opcode, Opcode.code op ≠ Int.tmod w 100) ∧
    (∀ i, Instruction.decode w = some i →
      Opcode.code i.opcode = Int.tmod w 100 ∧
      i.param_modes.nth n =
        ParamMode.from_i128
          (Int.tmod (Int.tdiv (Int.tdiv w 100) ((10 : Int) ^ n)) 10)) ∧
    ParamMode.from_i128 0 = some .positional ∧
    ParamMode.from_i128 1 = some .immediate ∧
    ParamMode.from_i128 2 = some .relative ∧
    (∀ d : Int, d ≠ 0 → d ≠ 1 → d ≠ 2 → ParamMode.from_i128 d = none) := by
  refine ⟨⟨?_, ?_⟩, ?_, rfl, rfl, rfl, ?_⟩
  · intro h op hop
    have hsome := Opcode.from_i128_eq_some.mpr hop
    unfold Instruction.decode at h
    rw [hsome] at h
    simp at h
  · intro h
    unfold Instruction.decode
    rw [Opcode.from_i128_eq_none.mpr h]
  · intro i hi
    unfold Instruction.decode at hi
    cases hk : Opcode.from_i128 (Int.tmod w 100) with
    | none => rw [hk] at hi; simp at hi
    | some op =>
        rw [hk] at hi
        simp only [Option.some.injEq] at hi
        subst hi
        exact ⟨Opcode.from_i128_eq_some.mp hk, rfl⟩
  · intro d h0 h1 h2
    unfold ParamMode.from_i128
    split <;> simp_all

/-- C6 witness: decoding the word 21002 yields opcode Multiply with code
2 and, for parameter index 2, the Relative mode digit. -/
theorem c6_witness :
    Opcode.code Opcode.multiply = Int.tmod 21002 100 ∧
    ParamModes.nth ⟨210⟩ 2 =
      ParamMode.from_i128
        (Int.tmod (Int.tdiv (Int.tdiv 21002 100) ((10 : Int) ^ 2)) 10) :=
  (c6_decode_contract 21002 2).2.1 ⟨Opcode.multiply, ⟨210⟩⟩ rfl

/-- C3 (amended): the three end-to-end scenarios hold as stated; the
fourth program, however, is not a quine under this machine: it outputs
the single value 109 and then hits a fatal decode error (word 100 at
pointer 10 decodes to opcode digit 0), so running it to Halt aborts
instead of producing a 16-value sequence. -/
theorem c3_end_to_end :
    ((IntcodeComputer.new prog1).bind fun c => runBounded 10 c [] []).map
        (fun r => (r.1.memory.get 0, r.2.2.2)) = some (2, Status.halt) ∧
    ((IntcodeComputer.new prog2).bind fun c => runBounded 10 c [] []).map
        (fun r => (r.1.memory.get 4, r.2.2.2)) = some (99, Status.halt) ∧
    ((IntcodeComputer.new prog3).bind fun c => runBounded 10 c [7] []).map
        (fun r => (r.2.1, r.2.2.1, r.2.2.2)) = some ([], [7], Status.halt) ∧
    ((IntcodeComputer.new progQuine).bind fun c => runBounded 4 c [] []).map
        (fun r => r.2.2.1) = some [109] ∧
    ((IntcodeComputer.new progQuine).bind fun c => runBounded 20 c [] []) =
      none :=
  ⟨by decide, by decide, by decide, by decide, rfl⟩

/-- C3 counterexample: running the claimed quine to Halt does not produce
a 16-value output sequence: after four steps only 109 has been output
with the machine still running, the fifth step is a fatal decode error,
and the program itself has 15 values, not 16. -/
theorem c3_counterexample :
    ((IntcodeComputer.new progQuine).bind fun c => runBounded 4 c [] []).map
        (fun r => (r.2.2.1, r.2.2.2)) = some ([109], Status.running) ∧
    ((IntcodeComputer.new progQuine).bind fun c => runBounded 20 c [] []) =
      none ∧
    progQuine.length = 15 :=
  ⟨by decide, rfl, by decide⟩

/-- C1: executing an Input instruction on an empty input channel returns
WaitForInput and leaves memory, the instruction pointer, the relative
base, and both channels unchanged; a subsequent execute call after
exactly one value has been pushed consumes that one value, writes it via
the index-0 mode to the first parameter's resolved location, advances
the pointer by 2, and returns Running, completing the instruction
exactly once. -/
theorem c1_input_wait_then_consume (c : IntcodeComputer) (outb : List Int)
    (w p v : Int) (md : ParamMode) (m' : Mem)
    (hw : c.memory.read? c.state.ip = some w)
    (hop : Int.tmod w 100 = 3)
    (hp : c.memory.read? (c.state.ip + 1) = some p)
    (hmd : ParamModes.nth ⟨Int.tdiv w 100⟩ 0 = some md)
    (hwr : md.write ⟨p, c.state.relative_base⟩ v c.memory = some m') :
    c.step [] outb = some (c, [], outb, .waitForInput) ∧
    c.step [v] outb =
      some (⟨m', ⟨c.state.ip + 2, c.state.relative_base⟩⟩, [], outb,
        .running) := by
  have hdec : Instruction.decode w = some ⟨.input, ⟨Int.tdiv w 100⟩⟩ := by
    unfold Instruction.decode
    rw [hop]
    rfl
  constructor
  · simp only [IntcodeComputer.step, hw, hdec, Option.some_bind]
    simp only [Instruction.run]
    rfl
  · simp only [IntcodeComputer.step, hw, hdec, Option.some_bind,
      Instruction.run, hp, hmd, hwr]

/-- Memory of the C1 witness machine: the three-value program 3,0,99. -/
def c1mem : Mem := ⟨3, fun i => ([3, 0, 99] : List Int).getD i 0⟩

/-- Machine of the C1 witness: the program 3,0,99 about to execute its
Input instruction. -/
def c1comp : IntcodeComputer := ⟨c1mem, ⟨0, 0⟩⟩

/-- C1 witness: the concrete program 3,0,99 waits on an empty channel
without any state change, then consumes a pushed 5 into cell 0. -/
theorem c1_witness :
    IntcodeComputer.step c1comp [] [] = some (c1comp, [], [], .waitForInput) ∧
    IntcodeComputer.step c1comp [5] [] =
      some (⟨⟨3, fun j => if j = 0 then 5 else c1mem.get j⟩, ⟨2, 0⟩⟩, [], [],
        .running) :=
  c1_input_wait_then_consume c1comp [] 3 0 5 .positional
    ⟨3, fun j => if j = 0 then 5 else c1mem.get j⟩ rfl rfl rfl rfl rfl

/-- C2 (amended): a taken conditional jump sets the instruction pointer
to the resolved target reduced modulo 2^64 (the truncating pointer
cast), with no non-negativity check, leaving memory, the relative base,
and both channels unchanged; a negative target at least
-2^64 + capacity wraps to an out-of-range pointer so the next
instruction fetch is the fatal error, while a more negative target can
wrap silently to a valid in-range pointer. -/
theorem c2_jump_target_wraps (op : Opcode) (pm : ParamModes) (m : Mem)
    (s : State) (inb outb : List Int) (cp tp cond target : Int)
    (md0 md1 : ParamMode)
    (hc : m.read? (s.ip + 1) = some cp)
    (ht : m.read? (s.ip + 2) = some tp)
    (hm0 : pm.nth 0 = some md0)
    (hcond : md0.read ⟨cp, s.relative_base⟩ m = some cond)
    (hm1 : pm.nth 1 = some md1)
    (htarget : md1.read ⟨tp, s.relative_base⟩ m = some target)
    (hop : (op = .jumpIfTrue ∧ cond ≠ 0) ∨ (op = .jumpIfFalse ∧ cond = 0)) :
    Instruction.run ⟨op, pm⟩ m s inb outb =
      some ⟨m, ⟨usizeOfInt target, s.relative_base⟩, inb, outb, .running⟩ ∧
    (target < 0 → -18446744073709551616 + (m.size : Int) ≤ target →
      m.read? (usizeOfInt target) = none) := by
  constructor
  · rcases hop with ⟨rfl, hcz⟩ | ⟨rfl, hcz⟩ <;>
      simp [Instruction.run, hc, ht, hm0, hcond, hm1, htarget, hcz]
  · intro hneg hge
    have hpos : (0 : Int) ≤ (m.size : Int) := Int.ofNat_nonneg m.size
    have hmod : Int.emod target 18446744073709551616 =
        target + 18446744073709551616 := by
      have h1 : (target + 18446744073709551616) % 18446744073709551616 =
          target + 18446744073709551616 :=
        Int.emod_eq_of_lt (by omega) (by omega)
      have h2 : (target + 18446744073709551616 * 1) % 18446744073709551616 =
          target % 18446744073709551616 :=
        Int.add_mul_emod_self_left target 18446744073709551616 1
      rw [mul_one] at h2
      exact h2.symm.trans h1
    have hnotlt : ¬ usizeOfInt target < m.size := by
      unfold usizeOfInt
      rw [hmod]
      omega
    simp [Mem.read?, hnotlt]

/-- Memory of the C2 witness machine: an immediate JumpIfTrue whose
target is the negative value -1. -/
def c2mem : Mem := ⟨6, fun i => ([1105, 1, -1, 0, 0, 99] : List Int).getD i 0⟩

/-- C2 witness: the taken jump with target -1 wraps the pointer to
2^64 - 1, and the fetch at that pointer is the fatal error. -/
theorem c2_witness :
    Instruction.run ⟨.jumpIfTrue, ⟨11⟩⟩ c2mem ⟨0, 0⟩ [] [] =
      some ⟨c2mem, ⟨usizeOfInt (-1), 0⟩, [], [], .running⟩ ∧
    Mem.read? c2mem (usizeOfInt (-1)) = none := by
  have h := c2_jump_target_wraps .jumpIfTrue ⟨11⟩ c2mem ⟨0, 0⟩ [] []
    1 (-1) 1 (-1) .immediate .immediate rfl rfl rfl rfl rfl rfl
    (Or.inl ⟨rfl, by decide⟩)
  exact ⟨h.1, h.2 (by decide) (by decide)⟩

/-- C2 counterexample: a program whose first instruction is an
immediate-mode JumpIfTrue with the negative resolved target 5 - 2^64 is
not terminated by any fatal addressing error: the pointer silently wraps
to the valid in-range index 5 and the session runs to a normal Halt. -/
theorem c2_counterexample :
    ((5 : Int) - 18446744073709551616 < 0) ∧
    ((IntcodeComputer.new c2prog).bind fun c => runBounded 1 c [] []).map
        (fun r => r.1.state.ip) = some 5 ∧
    ((IntcodeComputer.new c2prog).bind fun c => runBounded 10 c [] []).map
        (fun r => r.2.2.2) = some Status.halt :=
  ⟨by decide, by decide, by decide⟩

/-- C4: an Add, Multiply, LessThan, or Equals instruction that executes
without a fatal error advances the instruction pointer by exactly 4,
reports Running, and leaves the relative base, both channels, the memory
capacity, and every memory cell other than the single resolved
destination cell unchanged. -/
theorem c4_arith_frame (op : Opcode) (pm : ParamModes) (m : Mem) (s : State)
    (inb outb : List Int) (r : RunResult) (dp : Int) (md2 : ParamMode)
    (dst : Nat)
    (hop : op = .add ∨ op = .multiply ∨ op = .lessThan ∨ op = .equals)
    (hdp : m.read? (s.ip + 3) = some dp)
    (hm2 : pm.nth 2 = some md2)
    (hdst : md2.addr? ⟨dp, s.relative_base⟩ m = some dst)
    (hr : Instruction.run ⟨op, pm⟩ m s inb outb = some r) :
    r.state.ip = s.ip + 4 ∧ r.state.relative_base = s.relative_base ∧
    r.input_buffer = inb ∧ r.output_buffer = outb ∧ r.status = .running ∧
    r.memory.size = m.size ∧ ∀ j, j ≠ dst → r.memory.get j = m.get j := by
  rcases hop with rfl | rfl | rfl | rfl <;>
  · simp only [Instruction.run, Option.bind_eq_some, Option.some.injEq] at hr
    obtain ⟨lp, hlp, rp, hrp, dp2, hdp2, md0v, hmd0, lv, hlv, md1v, hmd1,
      rv, hrv, md2v, hmd2v, mm, hmm, hEq⟩ := hr
    rw [hdp] at hdp2
    obtain rfl := Option.some.inj hdp2
    rw [hm2] at hmd2v
    obtain rfl := Option.some.inj hmd2v
    obtain ⟨addr2, haddr2, rfl⟩ := ParamMode.addr?_of_write hmm
    rw [hdst] at haddr2
    obtain rfl := Option.some.inj haddr2
    subst hEq
    refine ⟨rfl, rfl, rfl, rfl, rfl, rfl, ?_⟩
    intro j hj
    simp [hj]

/-- Memory of the C4 witness machine: the self-add program 1,0,0,0,99. -/
def c4mem : Mem := ⟨5, fun i => ([1, 0, 0, 0, 99] : List Int).getD i 0⟩

/-- C4 witness: the positional Add of the program 1,0,0,0,99 writes cell
0 and leaves cell 3, the pointer offset, the base, and both channels as
the frame property states. -/
theorem c4_witness :
    (⟨⟨5, fun j => if j = 0 then 2 else c4mem.get j⟩, ⟨4, 0⟩, [], [],
        .running⟩ : RunResult).state.ip = (⟨0, 0⟩ : State).ip + 4 ∧
    (⟨⟨5, fun j => if j = 0 then 2 else c4mem.get j⟩, ⟨4, 0⟩, [], [],
        .running⟩ : RunResult).state.relative_base = 0 ∧
    (⟨⟨5, fun j => if j = 0 then 2 else c4mem.get j⟩, ⟨4, 0⟩, [], [],
        .running⟩ : RunResult).memory.size = c4mem.size ∧
    (⟨⟨5, fun j => if j = 0 then 2 else c4mem.get j⟩, ⟨4, 0⟩, [], [],
        .running⟩ : RunResult).memory.get 3 = c4mem.get 3 := by
  have h := c4_arith_frame .add ⟨0⟩ c4mem ⟨0, 0⟩ [] []
    ⟨⟨5, fun j => if j = 0 then 2 else c4mem.get j⟩, ⟨4, 0⟩, [], [],
      .running⟩ 0 .positional 0 (Or.inl rfl) rfl rfl rfl rfl
  exact ⟨h.1, h.2.1, h.2.2.2.2.2.1, h.2.2.2.2.2.2 3 (by decide)⟩

/-- C9: every instruction other than AdjustRelativeBase leaves the
relative base unchanged across a successful execute step; an
AdjustRelativeBase step changes only the relative base (by the resolved
operand) and the instruction pointer (by 2), leaving memory and both
channels unchanged. -/
theorem c9_relative_base_frame (op : Opcode) (pm : ParamModes) (m : Mem)
    (s : State) (inb outb : List Int) (r : RunResult)
    (hr : Instruction.run ⟨op, pm⟩ m s inb outb = some r) :
    (op ≠ .adjustRelativeBase → r.state.relative_base = s.relative_base) ∧
    (op = .adjustRelativeBase →
      r.memory = m ∧ r.input_buffer = inb ∧ r.output_buffer = outb ∧
      r.state.ip = s.ip + 2 ∧ r.status = .running ∧
      (∀ p md d, m.read? (s.ip + 1) = some p → pm.nth 0 = some md →
        md.read ⟨p, s.relative_base⟩ m = some d →
        r.state.relative_base = s.relative_base + d)) := by
  cases op with
  | add =>
      refine ⟨fun _ => ?_, fun heq => Opcode.noConfusion heq⟩
      simp only [Instruction.run, Option.bind_eq_some, Option.some.injEq] at hr
      obtain ⟨_, _, _, _, _, _, _, _, _, _, _, _, _, _, _, _, _, _, hEq⟩ := hr
      subst hEq
      rfl
  | multiply =>
      refine ⟨fun _ => ?_, fun heq => Opcode.noConfusion heq⟩
      simp only [Instruction.run, Option.bind_eq_some, Option.some.injEq] at hr
      obtain ⟨_, _, _, _, _, _, _, _, _, _, _, _, _, _, _, _, _, _, hEq⟩ := hr
      subst hEq
      rfl
  | lessThan =>
      refine ⟨fun _ => ?_, fun heq => Opcode.noConfusion heq⟩
      simp only [Instruction.run, Option.bind_eq_some, Option.some.injEq] at hr
      obtain ⟨_, _, _, _, _, _, _, _, _, _, _, _, _, _, _, _, _, _, hEq⟩ := hr
      subst hEq
      rfl
  | equals =>
      refine ⟨fun _ => ?_, fun heq => Opcode.noConfusion heq⟩
      simp only [Instruction.run, Option.bind_eq_some, Option.some.injEq] at hr
      obtain ⟨_, _, _, _, _, _, _, _, _, _, _, _, _, _, _, _, _, _, hEq⟩ := hr
      subst hEq
      rfl
  | input =>
      refine ⟨fun _ => ?_, fun heq => Opcode.noConfusion heq⟩
      cases inb with
      | nil =>
          simp only [Instruction.run, Option.some.injEq] at hr
          subst hr
          rfl
      | cons v rest =>
          simp only [Instruction.run, Option.bind_eq_some,
            Option.some.injEq] at hr
          obtain ⟨_, _, _, _, _, _, hEq⟩ := hr
          subst hEq
          rfl
  | output =>
      refine ⟨fun _ => ?_, fun heq => Opcode.noConfusion heq⟩
      simp only [Instruction.run, Option.bind_eq_some, Option.some.injEq] at hr
      obtain ⟨_, _, _, _, _, _, hEq⟩ := hr
      subst hEq
      rfl
  | jumpIfTrue =>
      refine ⟨fun _ => ?_, fun heq => Opcode.noConfusion heq⟩
      simp only [Instruction.run, Option.bind_eq_some, Option.some.injEq] at hr
      obtain ⟨_, _, _, _, _, _, _, _, hr⟩ := hr
      split at hr
      · simp only [Option.bind_eq_some, Option.some.injEq] at hr
        obtain ⟨_, _, _, _, hEq⟩ := hr
        subst hEq
        rfl
      · simp only [Option.some.injEq] at hr
        subst hr
        rfl
  | jumpIfFalse =>
      refine ⟨fun _ => ?_, fun heq => Opcode.noConfusion heq⟩
      simp only [Instruction.run, Option.bind_eq_some, Option.some.injEq] at hr
      obtain ⟨_, _, _, _, _, _, _, _, hr⟩ := hr
      split at hr
      · simp only [Option.bind_eq_some, Option.some.injEq] at hr
        obtain ⟨_, _, _, _, hEq⟩ := hr
        subst hEq
        rfl
      · simp only [Option.some.injEq] at hr
        subst hr
        rfl
  | halt =>
      refine ⟨fun _ => ?_, fun heq => Opcode.noConfusion heq⟩
      simp only [Instruction.run, Option.some.injEq] at hr
      subst hr
      rfl
  | adjustRelativeBase =>
      refine ⟨fun hne => absurd rfl hne, fun _ => ?_⟩
      simp only [Instruction.run, Option.bind_eq_some, Option.some.injEq] at hr
      obtain ⟨p, hp, md, hmd, d, hd, hEq⟩ := hr
      subst hEq
      refine ⟨rfl, rfl, rfl, rfl, rfl, ?_⟩
      intro p2 md2 d2 hp2 hmd2 hd2
      rw [hp] at hp2
      obtain rfl := Option.some.inj hp2
      rw [hmd] at hmd2
      obtain rfl := Option.some.inj hmd2
      rw [hd] at hd2
      obtain rfl := Option.some.inj hd2
      rfl

/-- Memory of the C9 witness machine: an immediate AdjustRelativeBase
instruction with operand 5. -/
def c9mem : Mem := ⟨2, fun i => ([109, 5] : List Int).getD i 0⟩

/-- C9 witness: a Halt step keeps relative base 3, and the concrete
AdjustRelativeBase step with immediate operand 5 changes only the base
(to 0 + 5) and the pointer (to 2). -/
theorem c9_witness :
    (⟨c9mem, ⟨0, 3⟩, [], [], .halt⟩ : RunResult).state.relative_base =
      (⟨0, 3⟩ : State).relative_base ∧
    (⟨c9mem, ⟨2, 5⟩, [], [], .running⟩ : RunResult).memory = c9mem ∧
    (⟨c9mem, ⟨2, 5⟩, [], [], .running⟩ : RunResult).input_buffer = [] ∧
    (⟨c9mem, ⟨2, 5⟩, [], [], .running⟩ : RunResult).output_buffer = [] ∧
    (⟨c9mem, ⟨2, 5⟩, [], [], .running⟩ : RunResult).state.ip = 2 ∧
    (⟨c9mem, ⟨2, 5⟩, [], [],
        .running⟩ : RunResult).state.relative_base = 0 + 5 := by
  have hH := (c9_relative_base_frame .halt ⟨0⟩ c9mem ⟨0, 3⟩ [] []
    ⟨c9mem, ⟨0, 3⟩, [], [], .halt⟩ rfl).1 (by decide)
  have hA := (c9_relative_base_frame .adjustRelativeBase ⟨1⟩ c9mem ⟨0, 0⟩
    [] [] ⟨c9mem, ⟨2, 5⟩, [], [], .running⟩ rfl).2 rfl
  exact ⟨hH, hA.1, hA.2.1, hA.2.2.1, hA.2.2.2.1,
    hA.2.2.2.2.2 5 .immediate 5 rfl rfl rfl⟩

end Day21
